import Mathlib

/-!
# Verification of vtk-h Clip (Clip.cpp)

Shallow embedding of `vtkh::detail::MultiPlane` and `vtkh::Clip` from
`src/filters/Clip.cpp` of the vtk-h repository.

Modelling conventions:

* C++ `float`/`double` scalars (`vtkm::FloatDefault`) are idealized as exact
  rationals `ℚ`; the `double -> float` narrowing conversions in the setters are
  the identity under this idealization.
* `vtkm::NegativeInfinity<Scalar>()` — the identity of `max` and strictly below
  every finite value — is modelled as `⊥` of `WithBot ℚ`, which has exactly
  those properties.
* The fixed C arrays `Vector Points[6]` / `Vector Normals[6]` are modelled as
  total maps `ℕ → Vec3`.  The source arrays have six slots (three from the
  initializer list, three value-initialized to zero); indices the claims
  exercise never exceed 2, and an out-of-range access would be UB in C++.
* `VTKM_ASSERT` (a fatal assertion) is modelled by returning `Option`:
  `none` means the assertion fired.  MultiPlane mutators are uniformly typed
  in this assertion monad; a mutator with no assertion in the source always
  returns `some`.
* `vtkm::ImplicitFunction::Modified()` — the external change-tracking hook —
  is modelled, as the spec directs, by an explicit version counter `modCount`
  incremented by `mpModified`.
* `vtkm::Normalize v` computes `v / sqrt(dot v v)`.  Over `ℚ` the square root
  is `Rat.sqrt`, which is exact whenever `dot v v` is the square of a rational
  (all inputs used in concrete witnesses are of this form).  Normalizing the
  zero vector divides by zero (NaN in C++ floats); under the total `ℚ`
  semantics of division the model yields the zero vector, and no assertion
  fires in either semantics.
-/

namespace VtkhClip

/-- A 3-component vector, `vtkm::Vec3f` with exact rational components. -/
structure Vec3 where
  x : ℚ
  y : ℚ
  z : ℚ
deriving DecidableEq

/-- `vtkm::Dot` on 3-vectors. -/
def dotQ (a b : Vec3) : ℚ := a.x * b.x + a.y * b.y + a.z * b.z

/-- Componentwise vector subtraction (`operator-` on `vtkm::Vec`). -/
def subQ (a b : Vec3) : Vec3 := ⟨a.x - b.x, a.y - b.y, a.z - b.z⟩

/-- Scalar multiplication on 3-vectors. -/
def smulQ (c : ℚ) (v : Vec3) : Vec3 := ⟨c * v.x, c * v.y, c * v.z⟩

/-- The zero vector `(0,0,0)`. -/
def zeroV : Vec3 := ⟨0, 0, 0⟩

/-- Model of `vtkm::Normalize`: divide by the magnitude `sqrt(dot v v)`.
Exact whenever the squared magnitude is a rational square; yields `zeroV`
on the zero vector (C++ floats would yield NaN — in both semantics the call
completes without any assertion). -/
def normalizeQ (v : Vec3) : Vec3 := smulQ (1 / Rat.sqrt (dotQ v v)) v

/-- State of `vtkh::detail::MultiPlane` (Clip.cpp lines 13–108): the two
six-slot arrays, the active-plane count `m_num_planes` (a C++ `int`,
modelled as `ℤ`), and the `Modified()` version counter. -/
structure MultiPlane where
  Points : ℕ → Vec3
  Normals : ℕ → Vec3
  m_num_planes : ℤ
  modCount : ℕ

/-- The default-constructed `MultiPlane`: array initializers from lines
101–107 (signed zeros `-0.0f` are the rational `0`), slots 3–5
value-initialized to zero, `m_num_planes = 3`. -/
def mpInit : MultiPlane :=
  { Points := fun _ => zeroV
  , Normals := fun i => if i = 0 then ⟨-1, 0, 0⟩ else if i = 1 then ⟨1, 0, 0⟩ else zeroV
  , m_num_planes := 3
  , modCount := 0 }

/-- The external `Modified()` hook, modelled as a version counter bump. -/
def mpModified (mp : MultiPlane) : MultiPlane := { mp with modCount := mp.modCount + 1 }

/-- `MultiPlane::SetPlanes` (lines 26–37): copy slots 0,1,2 of the argument
arrays into the stored arrays, then `Modified()`. -/
def mpSetPlanes (mp : MultiPlane) (points normals : ℕ → Vec3) : MultiPlane :=
  mpModified
    { mp with
      Points := fun i => if i < 3 then points i else mp.Points i
      Normals := fun i => if i < 3 then normals i else mp.Normals i }

/-- `MultiPlane::SetPlane` (lines 39–45): `VTKM_ASSERT(idx >= 0 && idx < 3)`,
then overwrite slot `idx` and `Modified()`. -/
def mpSetPlane (mp : MultiPlane) (idx : ℤ) (point normal : Vec3) : Option MultiPlane :=
  if 0 ≤ idx ∧ idx < 3 then
    some (mpModified
      { mp with
        Points := fun i => if (i : ℤ) = idx then point else mp.Points i
        Normals := fun i => if (i : ℤ) = idx then normal else mp.Normals i })
  else none

/-- `MultiPlane::SetNumPlanes` (lines 47–51): store the count (no assertion,
any `int` is accepted), then `Modified()`. -/
def mpSetNumPlanes (mp : MultiPlane) (num : ℤ) : Option MultiPlane :=
  some (mpModified { mp with m_num_planes := num })

/-- `MultiPlane::GetPlanes` (lines 53–63): a const method copying slots 0–2
into caller arrays; modelled as returning the copies together with the
(unchanged) receiver state. -/
def mpGetPlanes (mp : MultiPlane) : ((Fin 3 → Vec3) × (Fin 3 → Vec3)) × MultiPlane :=
  ((fun i => mp.Points i.val, fun i => mp.Normals i.val), mp)

/-- `MultiPlane::GetPoints` (line 65): const accessor for the points array. -/
def mpGetPoints (mp : MultiPlane) : (ℕ → Vec3) × MultiPlane := (mp.Points, mp)

/-- `MultiPlane::GetNormals` (line 67): const accessor for the normals array. -/
def mpGetNormals (mp : MultiPlane) : (ℕ → Vec3) × MultiPlane := (mp.Normals, mp)

/-- Number of loop iterations of the evaluation loops: C++ iterates
`index = 0; index < m_num_planes` so a nonpositive count runs zero times. -/
def numPlanesNat (mp : MultiPlane) : ℕ := mp.m_num_planes.toNat

/-- The per-plane value `dot(point - Points[i], Normals[i])` computed in the
bodies of `Value` and `Gradient` (lines 74–76, 88–90). -/
def planeVal (mp : MultiPlane) (point : Vec3) (i : ℕ) : ℚ :=
  dotQ (subQ point (mp.Points i)) (mp.Normals i)

/-- `MultiPlane::Value` (lines 69–80): start from negative infinity and fold
`max` over the per-plane values of the active planes. -/
def mpValue (mp : MultiPlane) (point : Vec3) : WithBot ℚ :=
  (List.range (numPlanesNat mp)).foldl
    (fun maxVal i => max maxVal ((planeVal mp point i : ℚ) : WithBot ℚ)) ⊥

/-- One iteration of the `Gradient` loop (lines 86–96): the accumulator is
`(maxVal, maxValIdx)`, updated only when `val > maxVal` strictly. -/
def gradStep (mp : MultiPlane) (point : Vec3) (acc : WithBot ℚ × ℕ) (i : ℕ) :
    WithBot ℚ × ℕ :=
  if acc.1 < ((planeVal mp point i : ℚ) : WithBot ℚ)
  then (((planeVal mp point i : ℚ) : WithBot ℚ), i)
  else acc

/-- The `Gradient` loop folded over the active planes, from the initial
accumulator `(-∞, 0)` (lines 84–85). -/
def gradFold (mp : MultiPlane) (point : Vec3) (n : ℕ) : WithBot ℚ × ℕ :=
  (List.range n).foldl (gradStep mp point) (⊥, 0)

/-- `MultiPlane::Gradient` (lines 82–98): return `Normals[maxValIdx]`. -/
def mpGradient (mp : MultiPlane) (point : Vec3) : Vec3 :=
  mp.Normals (gradFold mp point (numPlanesNat mp)).2

/-- The `MultiPlane(points, normals, num_planes)` constructor (lines 18–24):
`SetPlanes` on the default-initialized object, then assign `m_num_planes`
directly (no second `Modified()`). -/
def mkMultiPlane (points normals : ℕ → Vec3) (num_planes : ℤ) : MultiPlane :=
  { mpSetPlanes mpInit points normals with m_num_planes := num_planes }

/-- The axis-aligned box bounds `vtkm::Bounds` taken by `SetBoxClip`. -/
structure Bounds where
  xmin : ℚ
  xmax : ℚ
  ymin : ℚ
  ymax : ℚ
  zmin : ℚ
  zmax : ℚ

/-- The implicit-function objects a configured handle can hold: the
constructions performed by the `SetXClip` setters (`vtkm::Box`,
`vtkm::Sphere`, `vtkm::Plane` hold their construction parameters; `multi`
holds a `MultiPlane` state). -/
inductive Surface where
  | box : Vec3 → Vec3 → Surface
  | sphere : Vec3 → ℚ → Surface
  | plane : Vec3 → Vec3 → Surface
  | multi : MultiPlane → Surface

/-- State of a `vtkh::Clip` filter: the implicit-function handle held by
`InternalsType::m_func` (`none` until a setter installs a surface) and the
`m_invert` flag. -/
structure ClipState where
  m_func : Option Surface
  m_invert : Bool

/-- The `Clip` constructor (lines 120–125): fresh internals (empty handle),
`m_invert = false`. -/
def clipInit : ClipState := { m_func := none, m_invert := false }

/-- `Clip::SetInvertClip` (lines 132–136). -/
def clipSetInvertClip (c : ClipState) (invert : Bool) : ClipState :=
  { c with m_invert := invert }

/-- `Clip::SetBoxClip` (lines 138–151): build a `vtkm::Box` from the bounds'
min and max corners and install it in the handle. -/
def clipSetBoxClip (c : ClipState) (clipping_bounds : Bounds) : ClipState :=
  { c with
    m_func := some (Surface.box
      ⟨clipping_bounds.xmin, clipping_bounds.ymin, clipping_bounds.zmin⟩
      ⟨clipping_bounds.xmax, clipping_bounds.ymax, clipping_bounds.zmax⟩) }

/-- `Clip::SetSphereClip` (lines 153–164). -/
def clipSetSphereClip (c : ClipState) (center : Vec3) (radius : ℚ) : ClipState :=
  { c with m_func := some (Surface.sphere center radius) }

/-- `Clip::SetPlaneClip` (lines 166–181): origin and normal are passed to
`vtkm::Plane` as given (no normalization). -/
def clipSetPlaneClip (c : ClipState) (origin normal : Vec3) : ClipState :=
  { c with m_func := some (Surface.plane origin normal) }

/-- `Clip::Set2PlaneClip` (lines 184–223): points are the two origins plus a
zero third slot; normals are the two caller normals, normalized in place,
plus a zero third slot; construct `MultiPlane(points, normals, 2)`. -/
def clipSet2PlaneClip (c : ClipState) (origin1 normal1 origin2 normal2 : Vec3) :
    ClipState :=
  { c with
    m_func := some (Surface.multi (mkMultiPlane
      (fun i => if i = 0 then origin1 else if i = 1 then origin2 else zeroV)
      (fun i => if i = 0 then normalizeQ normal1
                else if i = 1 then normalizeQ normal2 else zeroV)
      2)) }

/-- `Clip::Set3PlaneClip` (lines 226–268): three origins, three normalized
normals, `MultiPlane(points, normals, 3)`. -/
def clipSet3PlaneClip
    (c : ClipState) (origin1 normal1 origin2 normal2 origin3 normal3 : Vec3) :
    ClipState :=
  { c with
    m_func := some (Surface.multi (mkMultiPlane
      (fun i => if i = 0 then origin1 else if i = 1 then origin2 else origin3)
      (fun i => if i = 0 then normalizeQ normal1
                else if i = 1 then normalizeQ normal2 else normalizeQ normal3)
      3)) }

/-- Modelled from the spec: the multi-domain dataset container
(`vtkh::DataSet`, declared in this repository but not present under `src/`).
It exposes `GetNumberOfDomains`, `GetDomain(i) -> (mesh, domain_id)` by
index, and `AddDomain(mesh, domain_id)` which appends; meshes are opaque
(`μ`), domain ids are integers (`vtkm::Id`). -/
structure VDataSet (μ : Type) where
  domains : List (μ × ℤ)

/-- The per-domain loop of `Clip::DoExecute` (lines 286–300), sequenced left
to right exactly as the index loop runs: clip the domain's mesh with the
configured surface handle, invert flag and field selection via the external
primitive `clipRun` (modelled from the spec: `vtkh::vtkmClip::Run`, not under
`src/`; it may fail, modelled as `Except`), and add the result under the
domain's original id.  A failure aborts the recursion immediately. -/
def clipDomains {μ φ ε : Type} (clipRun : μ → Option Surface → Bool → φ → Except ε μ)
    (func : Option Surface) (invert : Bool) (fsel : φ) :
    List (μ × ℤ) → Except ε (List (μ × ℤ))
  | [] => Except.ok []
  | d :: rest =>
    match clipRun d.1 func invert fsel with
    | Except.error e => Except.error e
    | Except.ok m =>
      match clipDomains clipRun func invert fsel rest with
      | Except.error e => Except.error e
      | Except.ok out => Except.ok ((m, d.2) :: out)

/-- `Clip::DoExecute` (lines 280–306): run the per-domain loop over the
input's domains, then pass the assembled collection through the external
cleanup stage (modelled from the spec: `vtkh::CleanGrid`, not under `src/`,
abstracted as `cleaner`); the cleaned result becomes the filter's output.
If any domain's clip fails, the failure propagates and no output is
produced. -/
def clipDoExecute {μ φ ε : Type}
    (clipRun : μ → Option Surface → Bool → φ → Except ε μ)
    (cleaner : VDataSet μ → VDataSet μ)
    (c : ClipState) (input : VDataSet μ) (fsel : φ) : Except ε (VDataSet μ) :=
  match clipDomains clipRun c.m_func c.m_invert fsel input.domains with
  | Except.error e => Except.error e
  | Except.ok ds => Except.ok (cleaner ⟨ds⟩)

/-! ## Helper lemmas about the evaluation loops -/

/-- Folding `max` from `⊥` over `List.range n` computes the `Finset.sup`. -/
theorem foldl_max_range (f : ℕ → ℚ) (n : ℕ) :
    (List.range n).foldl (fun maxVal i => max maxVal ((f i : ℚ) : WithBot ℚ)) ⊥
      = (Finset.range n).sup (fun i => ((f i : ℚ) : WithBot ℚ)) := by
  induction n with
  | zero => simp
  | succ n ih =>
      rw [List.range_succ, List.foldl_append, List.foldl_cons, List.foldl_nil, ih,
        Finset.range_succ, Finset.sup_insert, sup_eq_max, max_comm]

/-- `mpValue` as a `Finset.sup` of the active per-plane values. -/
theorem mpValue_eq_sup (mp : MultiPlane) (point : Vec3) :
    mpValue mp point
      = (Finset.range (numPlanesNat mp)).sup
          (fun i => ((planeVal mp point i : ℚ) : WithBot ℚ)) :=
  foldl_max_range (planeVal mp point) (numPlanesNat mp)

/-- Loop invariant of the `Gradient` fold: for at least one iteration, the
final accumulator holds an in-range index attaining the maximal per-plane
value, every earlier index being strictly smaller (ties keep the earlier
winner because the update condition is a strict `>`). -/
theorem gradFold_invariant (mp : MultiPlane) (point : Vec3) :
    ∀ n : ℕ, 1 ≤ n →
      (gradFold mp point n).2 < n
      ∧ (gradFold mp point n).1
          = ((planeVal mp point (gradFold mp point n).2 : ℚ) : WithBot ℚ)
      ∧ (∀ k < n, planeVal mp point k ≤ planeVal mp point (gradFold mp point n).2)
      ∧ (∀ k < (gradFold mp point n).2,
          planeVal mp point k < planeVal mp point (gradFold mp point n).2) := by
  intro n
  induction n with
  | zero => omega
  | succ n ih =>
      intro _
      rcases Nat.eq_zero_or_pos n with hn0 | hn1
      · subst hn0
        have h1 : gradFold mp point 1 = (((planeVal mp point 0 : ℚ) : WithBot ℚ), 0) := by
          simp [gradFold, gradStep, List.range_succ]
        rw [h1]
        exact ⟨Nat.zero_lt_one, rfl,
          by intro k hk; interval_cases k; exact le_refl _,
          by intro k hk; exact absurd hk (Nat.not_lt_zero k)⟩
      · have hstep : gradFold mp point (n + 1)
            = gradStep mp point (gradFold mp point n) n := by
          unfold gradFold
          rw [List.range_succ, List.foldl_append, List.foldl_cons, List.foldl_nil]
        obtain ⟨hlt, heq, hmax, hstrict⟩ := ih hn1
        by_cases hc : (gradFold mp point n).1 < ((planeVal mp point n : ℚ) : WithBot ℚ)
        · have hres : gradFold mp point (n + 1)
              = (((planeVal mp point n : ℚ) : WithBot ℚ), n) := by
            rw [hstep]; unfold gradStep; rw [if_pos hc]
          have hprev : planeVal mp point (gradFold mp point n).2 < planeVal mp point n := by
            rw [heq] at hc
            exact_mod_cast hc
          refine ⟨by rw [hres]; exact Nat.lt_succ_self n, by rw [hres], ?_, ?_⟩
          · intro k hk
            rw [hres]
            rcases Nat.lt_succ_iff_lt_or_eq.mp hk with hk' | hk'
            · exact le_of_lt (lt_of_le_of_lt (hmax k hk') hprev)
            · subst hk'; exact le_refl _
          · intro k hk
            rw [hres] at hk ⊢
            exact lt_of_le_of_lt (hmax k hk) hprev
        · have hres : gradFold mp point (n + 1) = gradFold mp point n := by
            rw [hstep]; unfold gradStep; rw [if_neg hc]
          have hlast : planeVal mp point n ≤ planeVal mp point (gradFold mp point n).2 := by
            rw [heq, not_lt] at hc
            exact_mod_cast hc
          refine ⟨by rw [hres]; exact Nat.lt_succ_of_lt hlt, by rw [hres]; exact heq, ?_,
            by rw [hres]; exact hstrict⟩
          intro k hk
          rw [hres]
          rcases Nat.lt_succ_iff_lt_or_eq.mp hk with hk' | hk'
          · exact hmax k hk'
          · subst hk'; exact hlast

/-! ## C1 -/

/-- C1: `MultiPlane::Value(p)` is the maximum over the active planes `i < N`
of `d_i = dot(p - point_i, normal_i)` (as a join in `WithBot ℚ`, the empty
maximum being `-∞`); consequently if every active `d_i < 0` then
`Value(p) < 0`, and if some active `d_i > 0` then `Value(p) > 0`. -/
theorem mpValue_is_max_of_planeVals (mp : MultiPlane) (point : Vec3) :
    mpValue mp point
      = (Finset.range (numPlanesNat mp)).sup
          (fun i => ((planeVal mp point i : ℚ) : WithBot ℚ))
    ∧ ((∀ i < numPlanesNat mp, planeVal mp point i < 0) → mpValue mp point < 0)
    ∧ ((∃ i, i < numPlanesNat mp ∧ 0 < planeVal mp point i) → 0 < mpValue mp point) := by
  refine ⟨mpValue_eq_sup mp point, ?_, ?_⟩
  · intro hall
    rw [mpValue_eq_sup]
    have h0 : (⊥ : WithBot ℚ) < (0 : WithBot ℚ) := by
      rw [← WithBot.coe_zero]
      exact WithBot.bot_lt_coe 0
    rw [Finset.sup_lt_iff h0]
    intro i hi
    rw [← WithBot.coe_zero, WithBot.coe_lt_coe]
    exact hall i (Finset.mem_range.mp hi)
  · rintro ⟨i, hi, hpos⟩
    rw [mpValue_eq_sup]
    have hle : ((planeVal mp point i : ℚ) : WithBot ℚ)
        ≤ (Finset.range (numPlanesNat mp)).sup
            (fun j => ((planeVal mp point j : ℚ) : WithBot ℚ)) :=
      Finset.le_sup (f := fun j => ((planeVal mp point j : ℚ) : WithBot ℚ))
        (Finset.mem_range.mpr hi)
    refine lt_of_lt_of_le ?_ hle
    rw [← WithBot.coe_zero, WithBot.coe_lt_coe]
    exact hpos

/-- A two-plane configuration used to witness C1 at a concrete input. -/
def mpExC1 : MultiPlane :=
  { Points := fun _ => zeroV
  , Normals := fun i => if i = 0 then ⟨1, 0, 0⟩ else ⟨0, 1, 0⟩
  , m_num_planes := 2
  , modCount := 0 }

/-- C1 witness: at the point `(2,3,0)` plane 0 of `mpExC1` has positive
value, so `Value > 0` there. -/
theorem mpValue_is_max_of_planeVals_witness :
    (0 < numPlanesNat mpExC1 ∧ 0 < planeVal mpExC1 ⟨2, 3, 0⟩ 0)
    ∧ 0 < mpValue mpExC1 ⟨2, 3, 0⟩ := by
  have h1 : 0 < numPlanesNat mpExC1 := by norm_num [numPlanesNat, mpExC1]
  have h2 : 0 < planeVal mpExC1 ⟨2, 3, 0⟩ 0 := by
    norm_num [planeVal, mpExC1, dotQ, subQ, zeroV]
  exact ⟨⟨h1, h2⟩, (mpValue_is_max_of_planeVals mpExC1 ⟨2, 3, 0⟩).2.2 ⟨0, h1, h2⟩⟩

/-! ## C2 -/

/-- C2: for an active plane count `N ≥ 1`, `MultiPlane::Gradient(p)` returns
the stored normal of an active plane `j` whose `d_j` is maximal among the
active planes, and every plane before `j` has a strictly smaller value — so
on exact ties the lowest-indexed tied plane wins (a later plane replaces the
winner only on a strictly greater value). -/
theorem mpGradient_argmax (mp : MultiPlane) (point : Vec3)
    (h : 1 ≤ mp.m_num_planes) :
    ∃ j, j < numPlanesNat mp ∧ mpGradient mp point = mp.Normals j
      ∧ (∀ k < numPlanesNat mp, planeVal mp point k ≤ planeVal mp point j)
      ∧ (∀ k < j, planeVal mp point k < planeVal mp point j) := by
  have hn : 1 ≤ numPlanesNat mp := by
    unfold numPlanesNat
    omega
  obtain ⟨hlt, _, hmax, hstrict⟩ := gradFold_invariant mp point (numPlanesNat mp) hn
  exact ⟨(gradFold mp point (numPlanesNat mp)).2, hlt, rfl, hmax, hstrict⟩

/-- Two identical planes at indices 0 and 1 (the tie-break configuration of
the spec's determinism test), used to witness C2. -/
def mpExC2 : MultiPlane :=
  { Points := fun _ => zeroV
  , Normals := fun i => if i = 0 then ⟨0, 0, 1⟩ else ⟨0, 0, 1⟩
  , m_num_planes := 2
  , modCount := 0 }

/-- C2 witness: `mpExC2` has `N = 2 ≥ 1` and both its planes are identical,
so whichever maximal index the theorem produces, the returned gradient is the
(shared) slot-0 normal of the tied planes. -/
theorem mpGradient_argmax_witness :
    1 ≤ mpExC2.m_num_planes
    ∧ mpGradient mpExC2 ⟨1, 1, 4⟩ = mpExC2.Normals 0 := by
  have h : 1 ≤ mpExC2.m_num_planes := by norm_num [mpExC2]
  refine ⟨h, ?_⟩
  obtain ⟨j, hj, hg, -, -⟩ := mpGradient_argmax mpExC2 ⟨1, 1, 4⟩ h
  rw [hg]
  have hj2 : j < 2 := by
    have : numPlanesNat mpExC2 = 2 := rfl
    omega
  interval_cases j
  · rfl
  · rfl

/-! ## C9 -/

/-- C9: every `MultiPlane` mutator (`SetPlanes`, `SetPlane`, `SetNumPlanes`)
bumps the modification counter by exactly one before returning, and the
read-only accessors (`GetPlanes`, `GetPoints`, `GetNormals`) leave the state
— in particular the counter — unchanged. -/
theorem mp_setters_mark_modified :
    (∀ (mp : MultiPlane) (points normals : ℕ → Vec3),
        (mpSetPlanes mp points normals).modCount = mp.modCount + 1)
    ∧ (∀ (mp : MultiPlane) (idx : ℤ) (point normal : Vec3) (mp2 : MultiPlane),
        mpSetPlane mp idx point normal = some mp2 → mp2.modCount = mp.modCount + 1)
    ∧ (∀ (mp : MultiPlane) (num : ℤ),
        ∃ mp2, mpSetNumPlanes mp num = some mp2 ∧ mp2.modCount = mp.modCount + 1)
    ∧ (∀ mp : MultiPlane,
        (mpGetPlanes mp).2 = mp ∧ (mpGetPoints mp).2 = mp ∧ (mpGetNormals mp).2 = mp) := by
  refine ⟨fun mp points normals => rfl, ?_, fun mp num => ⟨_, rfl, rfl⟩,
    fun mp => ⟨rfl, rfl, rfl⟩⟩
  intro mp idx point normal mp2 h
  unfold mpSetPlane at h
  by_cases hc : 0 ≤ idx ∧ idx < 3
  · rw [if_pos hc] at h
    cases h
    rfl
  · rw [if_neg hc] at h
    cases h

/-- C9 witness: on the default state, `SetPlane` at index 1 succeeds and the
counter goes from 0 to 1; `SetNumPlanes` likewise bumps it to 1. -/
theorem mp_setters_mark_modified_witness :
    (mpSetPlanes mpInit (fun _ => zeroV) (fun _ => zeroV)).modCount = 1
    ∧ Option.map MultiPlane.modCount (mpSetPlane mpInit 1 zeroV zeroV) = some 1
    ∧ Option.map MultiPlane.modCount (mpSetNumPlanes mpInit 2) = some 1 := by
  refine ⟨mp_setters_mark_modified.1 mpInit _ _, ?_, ?_⟩
  · cases h : mpSetPlane mpInit 1 zeroV zeroV with
    | none => exact absurd h (by simp [mpSetPlane])
    | some mp2 =>
        have := mp_setters_mark_modified.2.1 mpInit 1 zeroV zeroV mp2 h
        simp [this, mpInit]
  · obtain ⟨mp2, hm, hc⟩ := mp_setters_mark_modified.2.2.1 mpInit 2
    rw [hm]
    simp [hc, mpInit]

/-! ## C5 (corrected) -/

/-- The state `SetNumPlanes` silently produces for the out-of-contract count
5: the count is stored unchecked. -/
def mpCount5 : MultiPlane := mpModified { mpInit with m_num_planes := 5 }

/-- C5 counterexample: `SetNumPlanes` contains no assertion — the
out-of-contract count 5 is silently accepted and stored, so construction-time
plane-count violations do NOT trigger a fatal assertion. -/
theorem mp_count_violation_not_fatal_cx :
    mpSetNumPlanes mpInit 5 = some mpCount5
    ∧ mpSetNumPlanes mpInit 5 ≠ none
    ∧ mpCount5.m_num_planes = 5 :=
  ⟨rfl, by simp [mpSetNumPlanes], rfl⟩

/-- C5 amended: the only construction-time fatal assertion is `SetPlane`'s
index-range check (`0 ≤ idx < 3`); `SetNumPlanes` accepts and stores any
plane count without checking, and the plane builders accept zero-length
normals without any assertion (the `Normalize` call divides by zero instead
of halting). -/
theorem mp_assertion_boundary :
    (∀ (mp : MultiPlane) (idx : ℤ) (point normal : Vec3),
        (mpSetPlane mp idx point normal).isSome = true ↔ 0 ≤ idx ∧ idx < 3)
    ∧ (∀ (mp : MultiPlane) (num : ℤ),
        ∃ mp2, mpSetNumPlanes mp num = some mp2 ∧ mp2.m_num_planes = num)
    ∧ (∀ (c : ClipState) (o1 o2 n2 : Vec3),
        ∃ mp, (clipSet2PlaneClip c o1 zeroV o2 n2).m_func = some (Surface.multi mp)) := by
  refine ⟨?_, fun mp num => ⟨_, rfl, rfl⟩, fun c o1 o2 n2 => ⟨_, rfl⟩⟩
  intro mp idx point normal
  unfold mpSetPlane
  by_cases hc : 0 ≤ idx ∧ idx < 3
  · rw [if_pos hc]
    simpa using hc
  · rw [if_neg hc]
    simpa using hc

/-- C5 amended witness: at index 5 the `SetPlane` assertion fires, at index 1
it does not; `SetNumPlanes` stores the out-of-contract count 5. -/
theorem mp_assertion_boundary_witness :
    (mpSetPlane mpInit 5 zeroV zeroV).isSome = false
    ∧ (mpSetPlane mpInit 1 zeroV zeroV).isSome = true
    ∧ Option.map MultiPlane.m_num_planes (mpSetNumPlanes mpInit 5) = some 5 := by
  refine ⟨?_, ?_, ?_⟩
  · have h := mp_assertion_boundary.1 mpInit 5 zeroV zeroV
    simp only [show ¬((0:ℤ) ≤ 5 ∧ (5:ℤ) < 3) by omega, iff_false] at h
    simpa using h
  · exact (mp_assertion_boundary.1 mpInit 1 zeroV zeroV).mpr (by omega)
  · obtain ⟨mp2, hm, hc⟩ := mp_assertion_boundary.2.1 mpInit 5
    rw [hm]
    simp [hc]

/-! ## C7 (corrected) -/

/-- Per-plane values agree wherever both stored arrays agree. -/
theorem planeVal_congr (mpA mpB : MultiPlane) (point : Vec3) (i : ℕ)
    (hp : mpA.Points i = mpB.Points i) (hm : mpA.Normals i = mpB.Normals i) :
    planeVal mpA point i = planeVal mpB point i := by
  unfold planeVal
  rw [hp, hm]

/-- A count-0 surface whose (inactive) slot-0 normal is `(1,0,0)`. -/
def mpCx7a : MultiPlane :=
  { Points := fun _ => zeroV, Normals := fun _ => ⟨1, 0, 0⟩
  , m_num_planes := 0, modCount := 0 }

/-- A count-0 surface whose (inactive) slot-0 normal is `(2,0,0)`. -/
def mpCx7b : MultiPlane :=
  { Points := fun _ => zeroV, Normals := fun _ => ⟨2, 0, 0⟩
  , m_num_planes := 0, modCount := 0 }

/-- C7 counterexample: two surfaces with the same active count `N = 0` (so
they trivially agree on every slot `i < N`) whose stored slots at index
`N` and beyond differ; `Gradient` returns the stored slot-0 normal (the
loop never runs and `maxValIdx` keeps its initial value 0), so the results
differ — slots beyond the active count are not inert for `Gradient`. -/
theorem mp_slots_inert_cx :
    mpCx7a.m_num_planes = mpCx7b.m_num_planes
    ∧ numPlanesNat mpCx7a = 0
    ∧ mpGradient mpCx7a zeroV = ⟨1, 0, 0⟩
    ∧ mpGradient mpCx7b zeroV = ⟨2, 0, 0⟩
    ∧ mpGradient mpCx7a zeroV ≠ mpGradient mpCx7b zeroV := by
  have ha : mpGradient mpCx7a zeroV = ⟨1, 0, 0⟩ := rfl
  have hb : mpGradient mpCx7b zeroV = ⟨2, 0, 0⟩ := rfl
  refine ⟨rfl, rfl, ha, hb, ?_⟩
  rw [ha, hb]
  intro h
  have hx : (1 : ℚ) = 2 := congrArg Vec3.x h
  norm_num at hx

/-- C7 amended: stored slots at index `N` and beyond are inert for `Value`
for every active count, and for `Gradient` whenever the active count is at
least 1 (when the count is `≤ 0`, `Gradient` returns the stored slot-0
normal, which lies beyond the active range): two surfaces with the same
count agreeing on all slots below it give identical `Value` everywhere and,
for count `≥ 1`, identical `Gradient` everywhere. -/
theorem mp_slots_beyond_count_inert (mpA mpB : MultiPlane) (point : Vec3)
    (hn : mpA.m_num_planes = mpB.m_num_planes)
    (hp : ∀ i < numPlanesNat mpA, mpA.Points i = mpB.Points i)
    (hm : ∀ i < numPlanesNat mpA, mpA.Normals i = mpB.Normals i) :
    mpValue mpA point = mpValue mpB point
    ∧ (1 ≤ mpA.m_num_planes → mpGradient mpA point = mpGradient mpB point) := by
  have hcount : numPlanesNat mpA = numPlanesNat mpB := by
    unfold numPlanesNat
    rw [hn]
  have hpv : ∀ i < numPlanesNat mpA, planeVal mpA point i = planeVal mpB point i :=
    fun i hi => planeVal_congr mpA mpB point i (hp i hi) (hm i hi)
  have hfold : gradFold mpA point (numPlanesNat mpA)
      = gradFold mpB point (numPlanesNat mpA) := by
    unfold gradFold
    apply List.foldl_ext
    intro acc b hb
    unfold gradStep
    rw [hpv b (List.mem_range.mp hb)]
  constructor
  · unfold mpValue
    rw [← hcount]
    apply List.foldl_ext
    intro acc b hb
    rw [hpv b (List.mem_range.mp hb)]
  · intro h1
    have hnat : 1 ≤ numPlanesNat mpA := by
      unfold numPlanesNat
      omega
    obtain ⟨hlt, -, -, -⟩ := gradFold_invariant mpA point (numPlanesNat mpA) hnat
    unfold mpGradient
    rw [← hcount, ← hfold]
    exact hm _ hlt

/-- Witness configuration A for the amended C7: count 2, junk in slot 2. -/
def mpW7a : MultiPlane :=
  { Points := fun i => if i < 2 then zeroV else ⟨5, 5, 5⟩
  , Normals := fun i => if i = 0 then ⟨1, 0, 0⟩ else if i = 1 then ⟨0, 1, 0⟩ else ⟨3, 3, 3⟩
  , m_num_planes := 2, modCount := 0 }

/-- Witness configuration B: same active data as `mpW7a`, different junk. -/
def mpW7b : MultiPlane :=
  { Points := fun i => if i < 2 then zeroV else ⟨7, 7, 7⟩
  , Normals := fun i => if i = 0 then ⟨1, 0, 0⟩ else if i = 1 then ⟨0, 1, 0⟩ else ⟨9, 9, 9⟩
  , m_num_planes := 2, modCount := 0 }

/-- C7 amended witness: `mpW7a` and `mpW7b` differ only beyond slot 1 and
evaluate identically at a concrete point. -/
theorem mp_slots_beyond_count_inert_witness :
    mpValue mpW7a ⟨1, 2, 3⟩ = mpValue mpW7b ⟨1, 2, 3⟩
    ∧ mpGradient mpW7a ⟨1, 2, 3⟩ = mpGradient mpW7b ⟨1, 2, 3⟩ := by
  have h := mp_slots_beyond_count_inert mpW7a mpW7b ⟨1, 2, 3⟩ rfl
    (by intro i hi; have h2 : numPlanesNat mpW7a = 2 := rfl; rw [h2] at hi
        interval_cases i <;> rfl)
    (by intro i hi; have h2 : numPlanesNat mpW7a = 2 := rfl; rw [h2] at hi
        interval_cases i <;> rfl)
  exact ⟨h.1, h.2 (by norm_num [mpW7a])⟩

/-! ## C10 -/

/-- C10: the configuration setters are mutually frame-disjoint —
`SetInvertClip` leaves the configured implicit surface unchanged, and each
of the five surface-configuring setters leaves the invert flag unchanged. -/
theorem clip_setters_frame_disjoint :
    (∀ (c : ClipState) (invert : Bool), (clipSetInvertClip c invert).m_func = c.m_func)
    ∧ (∀ (c : ClipState) (b : Bounds), (clipSetBoxClip c b).m_invert = c.m_invert)
    ∧ (∀ (c : ClipState) (center : Vec3) (radius : ℚ),
        (clipSetSphereClip c center radius).m_invert = c.m_invert)
    ∧ (∀ (c : ClipState) (origin normal : Vec3),
        (clipSetPlaneClip c origin normal).m_invert = c.m_invert)
    ∧ (∀ (c : ClipState) (o1 n1 o2 n2 : Vec3),
        (clipSet2PlaneClip c o1 n1 o2 n2).m_invert = c.m_invert)
    ∧ (∀ (c : ClipState) (o1 n1 o2 n2 o3 n3 : Vec3),
        (clipSet3PlaneClip c o1 n1 o2 n2 o3 n3).m_invert = c.m_invert) :=
  ⟨fun _ _ => rfl, fun _ _ => rfl, fun _ _ _ => rfl, fun _ _ _ => rfl,
   fun _ _ _ _ _ => rfl, fun _ _ _ _ _ _ _ => rfl⟩

/-! ## Normalization lemmas (for C4 and C8) -/

theorem dotQ_smulQ_self (c : ℚ) (v : Vec3) :
    dotQ (smulQ c v) (smulQ c v) = c * c * dotQ v v := by
  unfold dotQ smulQ
  ring

theorem dotQ_self_nonneg (v : Vec3) : 0 ≤ dotQ v v := by
  unfold dotQ
  have hx := mul_self_nonneg v.x
  have hy := mul_self_nonneg v.y
  have hz := mul_self_nonneg v.z
  linarith

theorem dotQ_self_eq_zero (v : Vec3) (h : dotQ v v = 0) : v = zeroV := by
  rcases v with ⟨x, y, z⟩
  unfold dotQ at h
  simp only at h
  have hx := mul_self_nonneg x
  have hy := mul_self_nonneg y
  have hz := mul_self_nonneg z
  have ex : x = 0 := mul_self_eq_zero.mp (by linarith)
  have ey : y = 0 := mul_self_eq_zero.mp (by linarith)
  have ez : z = 0 := mul_self_eq_zero.mp (by linarith)
  unfold zeroV
  rw [ex, ey, ez]

theorem dotQ_self_pos (v : Vec3) (hv : v ≠ zeroV) : 0 < dotQ v v :=
  lt_of_le_of_ne (dotQ_self_nonneg v) (fun h => hv (dotQ_self_eq_zero v h.symm))

theorem smulQ_one (v : Vec3) : smulQ 1 v = v := by
  rcases v with ⟨x, y, z⟩
  simp [smulQ]

/-- Exactness of the model square root on rational squares. -/
theorem sqrt_dotQ (v : Vec3) (r : ℚ) (hr : 0 ≤ r) (h : dotQ v v = r * r) :
    Rat.sqrt (dotQ v v) = r := by
  rw [h, Rat.sqrt_eq, abs_of_nonneg hr]

/-- `Normalize` on a nonzero vector of rational magnitude `r` scales by the
positive factor `1/r` and produces a unit vector. -/
theorem normalizeQ_spec (v : Vec3) (r : ℚ) (hr : 0 ≤ r) (h : dotQ v v = r * r)
    (hv : v ≠ zeroV) :
    normalizeQ v = smulQ (1 / r) v ∧ 0 < 1 / r
    ∧ dotQ (normalizeQ v) (normalizeQ v) = 1 := by
  have hpos : 0 < dotQ v v := dotQ_self_pos v hv
  have hrpos : 0 < r := by nlinarith
  have heq : normalizeQ v = smulQ (1 / r) v := by
    unfold normalizeQ
    rw [sqrt_dotQ v r hr h]
  refine ⟨heq, by positivity, ?_⟩
  rw [heq, dotQ_smulQ_self, h]
  field_simp

/-- `Normalize` is the identity on unit vectors. -/
theorem normalizeQ_unit (v : Vec3) (h : dotQ v v = 1) : normalizeQ v = v := by
  have hv : v ≠ zeroV := by
    intro h0
    rw [h0] at h
    norm_num [dotQ, zeroV] at h
  obtain ⟨heq, -, -⟩ := normalizeQ_spec v 1 (by norm_num) (by rw [h]; norm_num) hv
  rw [heq]
  norm_num [smulQ_one]

/-! ## C4 -/

/-- C4: `Set2PlaneClip` stores the two origins as given in slots 0 and 1,
stores the two normals normalized (a positive rescaling to unit length), puts
the zero point/normal placeholder in slot 2, and sets the active count to 2;
`Set3PlaneClip` stores all three origins as given, all three normals
normalized, and sets the count to 3.  (Exact-arithmetic model: stated for
normals whose magnitude `r` is rational, as in all concrete witnesses.) -/
theorem set_plane_clip_builders_spec
    (c : ClipState) (o1 n1 o2 n2 o3 n3 : Vec3) (r1 r2 r3 : ℚ)
    (hr1 : 0 ≤ r1) (h1 : dotQ n1 n1 = r1 * r1) (hn1 : n1 ≠ zeroV)
    (hr2 : 0 ≤ r2) (h2 : dotQ n2 n2 = r2 * r2) (hn2 : n2 ≠ zeroV)
    (hr3 : 0 ≤ r3) (h3 : dotQ n3 n3 = r3 * r3) (hn3 : n3 ≠ zeroV) :
    (∃ mp, (clipSet2PlaneClip c o1 n1 o2 n2).m_func = some (Surface.multi mp)
      ∧ mp.Points 0 = o1 ∧ mp.Points 1 = o2 ∧ mp.Points 2 = zeroV
      ∧ mp.Normals 0 = smulQ (1 / r1) n1 ∧ dotQ (mp.Normals 0) (mp.Normals 0) = 1
      ∧ mp.Normals 1 = smulQ (1 / r2) n2 ∧ dotQ (mp.Normals 1) (mp.Normals 1) = 1
      ∧ 0 < 1 / r1 ∧ 0 < 1 / r2
      ∧ mp.Normals 2 = zeroV ∧ mp.m_num_planes = 2)
    ∧ (∃ mp, (clipSet3PlaneClip c o1 n1 o2 n2 o3 n3).m_func = some (Surface.multi mp)
      ∧ mp.Points 0 = o1 ∧ mp.Points 1 = o2 ∧ mp.Points 2 = o3
      ∧ mp.Normals 0 = smulQ (1 / r1) n1 ∧ dotQ (mp.Normals 0) (mp.Normals 0) = 1
      ∧ mp.Normals 1 = smulQ (1 / r2) n2 ∧ dotQ (mp.Normals 1) (mp.Normals 1) = 1
      ∧ mp.Normals 2 = smulQ (1 / r3) n3 ∧ dotQ (mp.Normals 2) (mp.Normals 2) = 1
      ∧ 0 < 1 / r1 ∧ 0 < 1 / r2 ∧ 0 < 1 / r3
      ∧ mp.m_num_planes = 3) := by
  obtain ⟨e1, p1, u1⟩ := normalizeQ_spec n1 r1 hr1 h1 hn1
  obtain ⟨e2, p2, u2⟩ := normalizeQ_spec n2 r2 hr2 h2 hn2
  obtain ⟨e3, p3, u3⟩ := normalizeQ_spec n3 r3 hr3 h3 hn3
  constructor
  · exact ⟨_, rfl, rfl, rfl, rfl, e1, u1, e2, u2, p1, p2, rfl, rfl⟩
  · exact ⟨_, rfl, rfl, rfl, rfl, e1, u1, e2, u2, e3, u3, p1, p2, p3, rfl⟩

/-- The MultiPlane `Set2PlaneClip` builds in the C4 witness scenario. -/
def mpW4 : MultiPlane := mkMultiPlane
  (fun i => if i = 0 then ⟨1, 1, 1⟩ else if i = 1 then ⟨2, 2, 2⟩ else zeroV)
  (fun i => if i = 0 then normalizeQ ⟨3, 4, 0⟩
            else if i = 1 then normalizeQ ⟨0, 0, 2⟩ else zeroV)
  2

/-- C4 witness: `Set2PlaneClip` with origins `(1,1,1)`, `(2,2,2)` and normals
`(3,4,0)` (magnitude 5) and `(0,0,2)` (magnitude 2) stores the origins
unchanged and the unit-normalized normals, with count 2. -/
theorem set_plane_clip_builders_spec_witness :
    (clipSet2PlaneClip clipInit ⟨1, 1, 1⟩ ⟨3, 4, 0⟩ ⟨2, 2, 2⟩ ⟨0, 0, 2⟩).m_func
        = some (Surface.multi mpW4)
    ∧ mpW4.Points 0 = ⟨1, 1, 1⟩ ∧ mpW4.Points 1 = ⟨2, 2, 2⟩ ∧ mpW4.Points 2 = zeroV
    ∧ mpW4.Normals 0 = ⟨3/5, 4/5, 0⟩ ∧ dotQ (mpW4.Normals 0) (mpW4.Normals 0) = 1
    ∧ mpW4.Normals 1 = ⟨0, 0, 1⟩
    ∧ mpW4.Normals 2 = zeroV ∧ mpW4.m_num_planes = 2 := by
  obtain ⟨⟨mp, hf, hp0, hp1, hp2, hn0, hu0, hn1, hu1, -, -, hn2, hcount⟩, -⟩ :=
    set_plane_clip_builders_spec clipInit ⟨1, 1, 1⟩ ⟨3, 4, 0⟩ ⟨2, 2, 2⟩ ⟨0, 0, 2⟩
      zeroV ⟨1, 2, 2⟩ 5 2 3
      (by norm_num) (by norm_num [dotQ]) (by norm_num [zeroV, Vec3.mk.injEq])
      (by norm_num) (by norm_num [dotQ]) (by norm_num [zeroV, Vec3.mk.injEq])
      (by norm_num) (by norm_num [dotQ]) (by norm_num [zeroV, Vec3.mk.injEq])
  have h2 : (clipSet2PlaneClip clipInit ⟨1, 1, 1⟩ ⟨3, 4, 0⟩ ⟨2, 2, 2⟩ ⟨0, 0, 2⟩).m_func
      = some (Surface.multi mpW4) := rfl
  rw [hf] at h2
  simp only [Option.some.injEq, Surface.multi.injEq] at h2
  subst h2
  refine ⟨rfl, hp0, hp1, hp2, ?_, hu0, ?_, hn2, hcount⟩
  · rw [hn0]
    norm_num [smulQ, Vec3.mk.injEq]
  · rw [hn1]
    norm_num [smulQ, Vec3.mk.injEq]

/-! ## C8 (corrected) -/

/-- The MultiPlane stored by `Set2PlaneClip(zeroV, (3,4,0), zeroV, (0,0,1))`
in the C8 counterexample. -/
def mpCx8 : MultiPlane := mkMultiPlane
  (fun i => if i = 0 then zeroV else if i = 1 then zeroV else zeroV)
  (fun i => if i = 0 then normalizeQ ⟨3, 4, 0⟩
            else if i = 1 then normalizeQ ⟨0, 0, 1⟩ else zeroV)
  2

/-- C8 counterexample: after `Set2PlaneClip` with the (non-unit) normal
`(3,4,0)`, the getter returns the normalized normal `(3/5,4/5,0)` in slot 0
— not the caller's input `(3,4,0)` — so the round-trip does not return the
inputs verbatim. -/
theorem set2_roundtrip_cx :
    (clipSet2PlaneClip clipInit zeroV ⟨3, 4, 0⟩ zeroV ⟨0, 0, 1⟩).m_func
        = some (Surface.multi mpCx8)
    ∧ (mpGetPlanes mpCx8).1.2 0 = ⟨3/5, 4/5, 0⟩
    ∧ (mpGetPlanes mpCx8).1.2 0 ≠ ⟨3, 4, 0⟩ := by
  have hn : (mpGetPlanes mpCx8).1.2 0 = smulQ (1/5) ⟨3, 4, 0⟩ := by
    show normalizeQ ⟨3, 4, 0⟩ = smulQ (1/5) ⟨3, 4, 0⟩
    unfold normalizeQ
    rw [show dotQ ⟨3, 4, 0⟩ ⟨3, 4, 0⟩ = 5 * 5 from by norm_num [dotQ], Rat.sqrt_eq]
    norm_num
  refine ⟨rfl, ?_, ?_⟩
  · rw [hn]
    norm_num [smulQ, Vec3.mk.injEq]
  · rw [hn]
    intro h
    have hx := congrArg Vec3.x h
    norm_num [smulQ] at hx

/-- C8 amended: after `Set2PlaneClip`, the getter yields the two origins
verbatim in point slots 0 and 1, the *normalized* normals in normal slots 0
and 1 — equal to the inputs exactly when the inputs are unit length, as
hypothesized here — and the zero point/normal placeholder in slot 2. -/
theorem set2_roundtrip_getter (c : ClipState) (o1 n1 o2 n2 : Vec3)
    (h1 : dotQ n1 n1 = 1) (h2 : dotQ n2 n2 = 1) :
    ∃ mp, (clipSet2PlaneClip c o1 n1 o2 n2).m_func = some (Surface.multi mp)
      ∧ (mpGetPlanes mp).1.1 0 = o1 ∧ (mpGetPlanes mp).1.1 1 = o2
      ∧ (mpGetPlanes mp).1.1 2 = zeroV
      ∧ (mpGetPlanes mp).1.2 0 = n1 ∧ (mpGetPlanes mp).1.2 1 = n2
      ∧ (mpGetPlanes mp).1.2 2 = zeroV := by
  refine ⟨_, rfl, rfl, rfl, rfl, ?_, ?_, rfl⟩
  · show normalizeQ n1 = n1
    exact normalizeQ_unit n1 h1
  · show normalizeQ n2 = n2
    exact normalizeQ_unit n2 h2

/-- The MultiPlane of the C8 amended witness (unit input normals). -/
def mpW8 : MultiPlane := mkMultiPlane
  (fun i => if i = 0 then ⟨1, 2, 3⟩ else if i = 1 then ⟨4, 5, 6⟩ else zeroV)
  (fun i => if i = 0 then normalizeQ ⟨1, 0, 0⟩
            else if i = 1 then normalizeQ ⟨0, 0, 1⟩ else zeroV)
  2

/-- C8 amended witness: with unit normals `(1,0,0)` and `(0,0,1)` the getter
returns the configuration inputs verbatim, and zero placeholders in slot 2. -/
theorem set2_roundtrip_getter_witness :
    (clipSet2PlaneClip clipInit ⟨1, 2, 3⟩ ⟨1, 0, 0⟩ ⟨4, 5, 6⟩ ⟨0, 0, 1⟩).m_func
        = some (Surface.multi mpW8)
    ∧ (mpGetPlanes mpW8).1.1 0 = ⟨1, 2, 3⟩ ∧ (mpGetPlanes mpW8).1.1 1 = ⟨4, 5, 6⟩
    ∧ (mpGetPlanes mpW8).1.1 2 = zeroV
    ∧ (mpGetPlanes mpW8).1.2 0 = ⟨1, 0, 0⟩ ∧ (mpGetPlanes mpW8).1.2 1 = ⟨0, 0, 1⟩
    ∧ (mpGetPlanes mpW8).1.2 2 = zeroV := by
  obtain ⟨mp, hf, ha, hb, hc, hd, he, hg⟩ :=
    set2_roundtrip_getter clipInit ⟨1, 2, 3⟩ ⟨1, 0, 0⟩ ⟨4, 5, 6⟩ ⟨0, 0, 1⟩
      (by norm_num [dotQ]) (by norm_num [dotQ])
  have h2 : (clipSet2PlaneClip clipInit ⟨1, 2, 3⟩ ⟨1, 0, 0⟩ ⟨4, 5, 6⟩ ⟨0, 0, 1⟩).m_func
      = some (Surface.multi mpW8) := rfl
  rw [hf] at h2
  simp only [Option.some.injEq, Surface.multi.injEq] at h2
  subst h2
  exact ⟨rfl, ha, hb, hc, hd, he, hg⟩

/-! ## C3 and C6: the DoExecute orchestration -/

/-- When the clip primitive succeeds on every domain, the per-domain loop
returns exactly the input domains clipped in place, each keyed by its
original domain id. -/
theorem clipDomains_all_ok {μ φ ε : Type}
    (clipRun : μ → Option Surface → Bool → φ → Except ε μ)
    (func : Option Surface) (invert : Bool) (fsel : φ) (f : μ × ℤ → μ) :
    ∀ l : List (μ × ℤ), (∀ d ∈ l, clipRun d.1 func invert fsel = Except.ok (f d)) →
      clipDomains clipRun func invert fsel l
        = Except.ok (l.map (fun d => (f d, d.2))) := by
  intro l
  induction l with
  | nil => intro _; rfl
  | cons d rest ih =>
      intro h
      have hd := h d (List.mem_cons_self d rest)
      have hrest := ih (fun d2 hd2 => h d2 (List.mem_cons_of_mem d hd2))
      unfold clipDomains
      rw [hd, hrest]
      rfl

/-- If the clip primitive fails on some domain of the list, the per-domain
loop returns an error. -/
theorem clipDomains_error {μ φ ε : Type}
    (clipRun : μ → Option Surface → Bool → φ → Except ε μ)
    (func : Option Surface) (invert : Bool) (fsel : φ) :
    ∀ l : List (μ × ℤ),
      (∃ d ∈ l, ∃ e, clipRun d.1 func invert fsel = Except.error e) →
      ∃ e, clipDomains clipRun func invert fsel l = Except.error e := by
  intro l
  induction l with
  | nil => rintro ⟨d, hd, -⟩; exact absurd hd (List.not_mem_nil d)
  | cons d rest ih =>
      rintro ⟨d2, hd2, e2, he2⟩
      unfold clipDomains
      cases hrun : clipRun d.1 func invert fsel with
      | error e => exact ⟨e, rfl⟩
      | ok m =>
          have hmem : d2 ∈ rest := by
            rcases List.mem_cons.mp hd2 with h | h
            · subst h
              rw [hrun] at he2
              cases he2
            · exact h
          obtain ⟨e, he⟩ := ih ⟨d2, hmem, e2, he2⟩
          rw [he]
          exact ⟨e, rfl⟩

/-- C3: `Clip::DoExecute` processes the input's domains in index order; for
each it invokes the external clip primitive with that domain's mesh, the
configured implicit-function handle, the invert flag and the field
selection, and adds the result under the domain's original id; the
assembled collection is passed through the external cleanup stage and the
cleaned result becomes the filter's output.  (The container, clip primitive
and cleanup stage are modelled from the spec; see `VDataSet`,
`clipDomains`, `clipDoExecute`.) -/
theorem clipDoExecute_clips_each_domain {μ φ ε : Type}
    (clipRun : μ → Option Surface → Bool → φ → Except ε μ)
    (cleaner : VDataSet μ → VDataSet μ)
    (c : ClipState) (input : VDataSet μ) (fsel : φ) (f : μ × ℤ → μ)
    (h : ∀ d ∈ input.domains,
        clipRun d.1 c.m_func c.m_invert fsel = Except.ok (f d)) :
    clipDoExecute clipRun cleaner c input fsel
      = Except.ok (cleaner ⟨input.domains.map (fun d => (f d, d.2))⟩) := by
  unfold clipDoExecute
  rw [clipDomains_all_ok clipRun c.m_func c.m_invert fsel f input.domains h]

/-- The concrete clip primitive of the C3 witness: "clipping" adds 1. -/
def wRun3 : ℕ → Option Surface → Bool → Unit → Except Unit ℕ :=
  fun m _ _ _ => Except.ok (m + 1)

/-- The corresponding per-domain result map of the C3 witness. -/
def wF3 : ℕ × ℤ → ℕ := fun d => d.1 + 1

/-- C3 witness: a two-domain input with ids 7 and 9 comes out with both
meshes clipped and both ids preserved, then cleaned (here `cleaner = id`). -/
theorem clipDoExecute_clips_each_domain_witness :
    clipDoExecute wRun3 id clipInit ⟨[(10, 7), (20, 9)]⟩ ()
      = Except.ok ⟨[(11, 7), (21, 9)]⟩ := by
  have h := clipDoExecute_clips_each_domain wRun3 id clipInit ⟨[(10, 7), (20, 9)]⟩ () wF3
    (fun d _ => rfl)
  simpa [wF3] using h

/-- C6: if the external clip primitive fails on any one domain, the failure
propagates and the whole multi-domain clip aborts — `DoExecute` yields an
error and never an output dataset (no partial result is installed). -/
theorem clipDoExecute_aborts_on_failure {μ φ ε : Type}
    (clipRun : μ → Option Surface → Bool → φ → Except ε μ)
    (cleaner : VDataSet μ → VDataSet μ)
    (c : ClipState) (input : VDataSet μ) (fsel : φ)
    (h : ∃ d ∈ input.domains, ∃ e,
        clipRun d.1 c.m_func c.m_invert fsel = Except.error e) :
    (∃ e, clipDoExecute clipRun cleaner c input fsel = Except.error e)
    ∧ ∀ out : VDataSet μ, clipDoExecute clipRun cleaner c input fsel ≠ Except.ok out := by
  obtain ⟨e, he⟩ := clipDomains_error clipRun c.m_func c.m_invert fsel input.domains h
  have hres : clipDoExecute clipRun cleaner c input fsel = Except.error e := by
    unfold clipDoExecute
    rw [he]
  refine ⟨⟨e, hres⟩, ?_⟩
  intro out hok
  rw [hres] at hok
  cases hok

/-- The concrete clip primitive of the C6 witness: fails on mesh 20. -/
def wRun6 : ℕ → Option Surface → Bool → Unit → Except Unit ℕ :=
  fun m _ _ _ => if m = 20 then Except.error () else Except.ok m

/-- C6 witness: with the second domain's clip failing, the whole run returns
the error — no partially assembled dataset. -/
theorem clipDoExecute_aborts_on_failure_witness :
    clipDoExecute wRun6 id clipInit ⟨[(10, 7), (20, 9)]⟩ () = Except.error () := by
  obtain ⟨⟨e, he⟩, -⟩ := clipDoExecute_aborts_on_failure wRun6 id clipInit
    ⟨[(10, 7), (20, 9)]⟩ () ⟨(20, 9), by norm_num, (), rfl⟩
  exact he

end VtkhClip
